import Mathlib

/-!
Shallow embedding of the Inventory Stock Ledger subsystem of `src/main.py`
(the `INVENTARIO DE ALMACÉN` section): locations, items, the movement
ledger, and the handlers `inv_add_item_submit`, `inv_mov_submit`,
`inv_adjust_submit`, `inv_eliminar_do`, `inv_locations_add`,
`inv_locations_delete`, together with the code generator
`inv_generate_next_code`.

Database state is modelled as explicit lists (the three tables), the SQL
statements each handler issues are translated to list operations, and the
`with conn:` transaction discipline of psycopg2 is modelled by handlers
returning the untouched input state on every failure path (each handler
raises before any write, and an exception inside the transaction rolls all
its writes back).  Timestamps (`created_at`, `updated_at`) are not
modelled: no claim mentions them.
-/

namespace WomPartes

/-! ### Python string primitives

The handlers use `str.strip()`, `str.upper()`, `str.split("-")` and
`int(...)`.  They are embedded on `List Char`; for the ASCII strings this
application manipulates the embeddings agree with Python. -/

/-- Embedding of Python `str.strip()` (ASCII whitespace). -/
def pyStrip (s : String) : String :=
  ⟨((s.data.dropWhile Char.isWhitespace).reverse.dropWhile Char.isWhitespace).reverse⟩

/-- Uppercase one character, as Python `str.upper()` does on ASCII. -/
def pyUpperChar (c : Char) : Char :=
  if 'a' ≤ c ∧ c ≤ 'z' then Char.ofNat (c.toNat - 32) else c

/-- Embedding of Python `str.upper()` (ASCII letters). -/
def pyUpper (s : String) : String :=
  ⟨s.data.map pyUpperChar⟩

/-- Embedding of Python `str.split("-")` for a one-character separator. -/
def splitDash : List Char → List (List Char)
  | [] => [[]]
  | c :: cs =>
    if c = '-' then [] :: splitDash cs
    else
      match splitDash cs with
      | [] => [[c]]
      | p :: ps => (c :: p) :: ps

/-- Value of a digit string, most significant digit first. -/
def digitsVal (l : List Char) : Nat :=
  l.foldl (fun n c => 10 * n + (c.toNat - 48)) 0

/-- Embedding of Python `int(str)` restricted to plain digit strings (the
only shape that occurs in generated item codes); any other input raises in
Python and the caller's `except` turns that into `0`, which is what
`getD 0` on `none` yields. -/
def pyIntOpt (l : List Char) : Option Nat :=
  if l ≠ [] ∧ l.all Char.isDigit then some (digitsVal l) else none

/-! ### SQL text ordering

`inv_generate_next_code` runs `order by code desc limit 1`, i.e. it takes
the greatest matching `text` value.  We embed the comparison as byte-wise
(C-collation) lexicographic order; for the code strings compared here
(a letter, a dash, then digits) the common locale collations order the
same way. -/

/-- Byte-wise lexicographic strict order on character lists. -/
def strLtB : List Char → List Char → Bool
  | [], [] => false
  | [], _ :: _ => true
  | _ :: _, [] => false
  | a :: as, b :: bs =>
    if a.toNat < b.toNat then true
    else if b.toNat < a.toNat then false
    else strLtB as bs

/-- The larger of two codes under `strLtB`. -/
def bmaxCode (a b : String) : String :=
  if strLtB a.data b.data then b else a

/-- SQL `like` against the pattern `{pref}-%`. -/
def codeLike (pref : String) (code : String) : Bool :=
  (pref.data ++ ['-']).isPrefixOf code.data

/-- `select code from wom_inv_items where code like '{pref}-%' order by
code desc limit 1` over the list of all item codes (active and inactive
alike: the query has no `active` filter). -/
def maxLikeCode (codes : List String) (pref : String) : Option String :=
  match codes.filter (fun c => codeLike pref c) with
  | [] => none
  | c :: cs => some (cs.foldl bmaxCode c)

/-! ### Decimal formatting (Python `%04d` / `f"...:04d"`) -/

/-- The character for a single decimal digit. -/
def digitChar (d : Nat) : Char := Char.ofNat (48 + d)

/-- Decimal digits, most significant first; structural recursion on a
fuel argument so that the kernel can evaluate it (`natDigits` below
always supplies enough fuel). -/
def natDigitsF : Nat → Nat → List Char
  | 0, _ => []
  | fuel + 1, n =>
    if n < 10 then [digitChar n]
    else natDigitsF fuel (n / 10) ++ [digitChar (n % 10)]

/-- Decimal digits of a natural number, most significant first. -/
def natDigits (n : Nat) : List Char := natDigitsF (n + 1) n

/-- Python `f"…:04d"` on a natural number: left-pad the decimal digits
with zeros to width 4 (numbers of five or more digits print in full). -/
def pad4 (n : Nat) : String :=
  ⟨List.replicate (4 - (natDigits n).length) '0' ++ natDigits n⟩

/-! ### Category table -/

/-- `INV_CATEGORIES` from `src/main.py`. -/
def INV_CATEGORIES : List (String × String) :=
  [("Electronica", "E"), ("Ferretería", "F"), ("Papelería", "P"),
   ("Atrezzo y Decoración", "A"), ("Varios", "V")]

/-- `inv_category_prefix`: first matching category's code letter, with
`"V"` as the fallback for a category outside the table. -/
def inv_category_prefix (cat : String) : String :=
  match INV_CATEGORIES.find? (fun p => p.1 == cat) with
  | some p => p.2
  | none => "V"

/-- `inv_generate_next_code` over the list of existing item codes: take
the string-greatest code matching `{pref}-%`, parse the part after the
first dash as an integer (0 when absent or unparsable), add 1, format
zero-padded to four digits. -/
def inv_generate_next_code (codes : List String) (category : String) : String :=
  let pref := inv_category_prefix category
  let n : Nat :=
    match maxLikeCode codes pref with
    | none => 0
    | some last =>
      if last.data.contains '-' then
        match (splitDash last.data).drop 1 with
        | [] => 0
        | p :: _ => (pyIntOpt p).getD 0
      else 0
  pref ++ "-" ++ pad4 (n + 1)

/-! ### Data model (the three tables) -/

/-- A row of `wom_inv_locations`. -/
structure InvLocation where
  id : Nat
  name : String
  active : Bool
deriving DecidableEq

/-- A row of `wom_inv_items`.  `initStock` is a ghost field, not a
database column: it records the (clamped) quantity the item was created
with, is written once at creation and never after, and is used only to
state the ledger-reconciliation invariant. -/
structure InvItem where
  id : Nat
  code : String
  category : String
  description : String
  location_id : Nat
  stock : Int
  active : Bool
  initStock : Int
deriving DecidableEq

/-- A row of `wom_inv_moves` (`created_at` not modelled). -/
structure InvMove where
  item_id : Nat
  move_type : String
  qty : Int
  user_code : String
  user_name : String
deriving DecidableEq

/-- The session user fields the handlers read (`u["codigo"]`,
`u["nombre"]`). -/
structure InvUser where
  codigo : String
  nombre : String
deriving DecidableEq

/-- The database state: the three tables plus the two `bigserial`
counters. -/
structure InvState where
  locations : List InvLocation
  items : List InvItem
  moves : List InvMove
  nextLocId : Nat
  nextItemId : Nat
deriving DecidableEq

/-- The distinguishable failure outcomes of the handlers; each
constructor corresponds to one redirect message or raised exception in
the source. -/
inductive InvErr where
  | invalidInput       -- "Datos no válidos"
  | notFound           -- "Artículo no encontrado"
  | insufficientStock  -- "No hay stock suficiente" / "Stock insuficiente"
  | invalidQuantity    -- "Ajuste no válido"
  | emptyName          -- "Nombre vacío"
  | locationInUse      -- "No se puede eliminar: hay artículos en esa ubicación"
  | codeConflict       -- both inserts in inv_add_item_submit raised
deriving DecidableEq

/-! ### The handlers -/

/-- `select … from wom_inv_items where id=%s for update` (no `active`
filter) in `inv_mov_submit`. -/
def findItem (st : InvState) (id : Nat) : Option InvItem :=
  st.items.find? (fun it => it.id == id)

/-- `select … from wom_inv_items where id=%s and active=true for update`
in `inv_adjust_submit`. -/
def findActiveItem (st : InvState) (id : Nat) : Option InvItem :=
  st.items.find? (fun it => it.id == id && it.active)

/-- `update wom_inv_items set stock=%s where id=%s`. -/
def setStock (items : List InvItem) (id : Nat) (v : Int) : List InvItem :=
  items.map (fun it => if it.id == id then { it with stock := v } else it)

/-- `inv_mov_submit` (POST `/encargado/inventario/mov`): normalise the
movement type, validate, lock and read the item row, reject an
overdrawing SALIDA, then write the new stock and append the ledger row in
one transaction.  Every failure path leaves the state untouched (the
validation redirect happens before the transaction opens; the raises
inside `with conn:` roll the transaction back). -/
def inv_mov_submit (st : InvState) (item_id : Nat) (move_type0 : String)
    (qty : Int) (u : InvUser) : InvState × Option InvErr :=
  let move_type := pyUpper (pyStrip move_type0)
  if ¬(move_type = "ENTRADA" ∨ move_type = "SALIDA") ∨ qty ≤ 0 then
    (st, some .invalidInput)
  else
    match findItem st item_id with
    | none => (st, some .notFound)
    | some row =>
      if move_type = "SALIDA" ∧ row.stock - qty < 0 then
        (st, some .insufficientStock)
      else
        let new_stock := if move_type = "ENTRADA" then row.stock + qty else row.stock - qty
        ({ st with
            items := setStock st.items item_id new_stock,
            moves := st.moves ++
              [⟨item_id, move_type, qty, pyUpper (pyStrip u.codigo), pyStrip u.nombre⟩] },
         none)

/-- `inv_adjust_submit` (POST `/inventario/adjust`): reject a zero delta,
translate the sign into a movement type, look the item up (this query
does filter on `active=true`), reject a negative resulting stock, then
write stock and ledger row; the actor fields are inserted verbatim (no
strip/upper here, unlike `inv_mov_submit`). -/
def inv_adjust_submit (st : InvState) (item_id : Nat) (delta : Int)
    (u : InvUser) : InvState × Option InvErr :=
  if delta = 0 then (st, some .invalidQuantity)
  else
    let move_type := if delta > 0 then "ENTRADA" else "SALIDA"
    let qty : Int := |delta|
    match findActiveItem st item_id with
    | none => (st, some .notFound)
    | some row =>
      let new_stock := if move_type = "ENTRADA" then row.stock + qty else row.stock - qty
      if new_stock < 0 then (st, some .insufficientStock)
      else
        ({ st with
            items := setStock st.items item_id new_stock,
            moves := st.moves ++ [⟨item_id, move_type, qty, u.codigo, u.nombre⟩] },
         none)

/-- The `location_id` foreign key of `wom_inv_items` admits any existing
location row (active or not). -/
def locationExists (st : InvState) (lid : Nat) : Bool :=
  st.locations.any (fun l => l.id == lid)

/-- There already is a row with this code (`code` is `unique`). -/
def codeTaken (st : InvState) (code : String) : Bool :=
  st.items.any (fun it => it.code == code)

/-- The `insert into wom_inv_items …` succeeds iff neither the `unique`
constraint on `code` nor the location foreign key is violated. -/
def itemInsertOk (st : InvState) (code : String) (lid : Nat) : Bool :=
  !codeTaken st code && locationExists st lid

/-- Append the new item row (`stock = qty`, `active = true`); the ghost
`initStock` records the same `qty`. -/
def insertItem (st : InvState) (code category description : String)
    (lid : Nat) (qty : Int) : InvState :=
  { st with
      items := st.items ++
        [⟨st.nextItemId, code, category, description, lid, qty, true, qty⟩],
      nextItemId := st.nextItemId + 1 }

/-- `inv_add_item_submit` (POST `/encargado/inventario/add_item`): strip
the inputs, clamp a negative quantity to 0, generate a code, insert; if
the insert raises, regenerate the code once and insert again; a second
failure propagates (nothing was written, each `db_exec` is its own
transaction).  No ledger row is written for the initial quantity. -/
def inv_add_item_submit (st : InvState) (category0 : String) (location_id : Nat)
    (description0 : String) (qty0 : Int) : InvState × Option InvErr :=
  let category := pyStrip category0
  let description := pyStrip description0
  let qty : Int := if qty0 < 0 then 0 else qty0
  let code := inv_generate_next_code (st.items.map (fun it => it.code)) category
  if itemInsertOk st code location_id then
    (insertItem st code category description location_id qty, none)
  else
    let code2 := inv_generate_next_code (st.items.map (fun it => it.code)) category
    if itemInsertOk st code2 location_id then
      (insertItem st code2 category description location_id qty, none)
    else
      (st, some .codeConflict)

/-- `inv_eliminar_do` (POST `…/gestion/eliminar_confirm`): soft delete,
`update wom_inv_items set active=false where id=%s`. -/
def inv_eliminar_do (st : InvState) (id : Nat) : InvState :=
  { st with
      items := st.items.map
        (fun it => if it.id == id then { it with active := false } else it) }

/-- `inv_locations_add` (POST `…/gestion/ubicaciones/add`): reject an
empty (stripped) name, else `insert … on conflict (name) do update set
active=true` — an existing row with that name, active or not, is simply
set active again and no new row is created. -/
def inv_locations_add (st : InvState) (name0 : String) : InvState × Option InvErr :=
  let name := pyStrip name0
  if name = "" then (st, some .emptyName)
  else if st.locations.any (fun l => l.name == name) then
    ({ st with
        locations := st.locations.map
          (fun l => if l.name == name then { l with active := true } else l) },
     none)
  else
    ({ st with
        locations := st.locations ++ [⟨st.nextLocId, name, true⟩],
        nextLocId := st.nextLocId + 1 },
     none)

/-- `inv_locations_delete` (GET `…/gestion/ubicaciones/delete`): count
the active items referencing the location; refuse if any, else set the
location inactive. -/
def inv_locations_delete (st : InvState) (id : Nat) : InvState × Option InvErr :=
  let n := (st.items.filter (fun it => it.active && it.location_id == id)).length
  if n > 0 then (st, some .locationInUse)
  else
    ({ st with
        locations := st.locations.map
          (fun l => if l.id == id then { l with active := false } else l) },
     none)

/-! ### Operation sequences -/

/-- The committed operations a caller can issue against the subsystem. -/
inductive Op where
  | addItem (category : String) (location_id : Nat) (description : String) (qty : Int)
  | mov (item_id : Nat) (move_type : String) (qty : Int) (u : InvUser)
  | adjust (item_id : Nat) (delta : Int) (u : InvUser)
  | delItem (id : Nat)
  | locAdd (name : String)
  | locDelete (id : Nat)

/-- Commit one operation; a failed operation leaves the state unchanged
(each handler redirects with an error and writes nothing). -/
def step (st : InvState) : Op → InvState
  | .addItem c lid d q => (inv_add_item_submit st c lid d q).1
  | .mov i mt q u => (inv_mov_submit st i mt q u).1
  | .adjust i d u => (inv_adjust_submit st i d u).1
  | .delItem i => inv_eliminar_do st i
  | .locAdd n => (inv_locations_add st n).1
  | .locDelete i => (inv_locations_delete st i).1

/-- `ensure_inventory_schema` seeds locations `Caja 1` … `Caja 20` into
an empty database. -/
def seedLocations : List InvLocation :=
  (List.range 20).map (fun i => ⟨i + 1, "Caja " ++ toString (i + 1), true⟩)

/-- The state of a freshly initialised database. -/
def invInit : InvState := ⟨seedLocations, [], [], 21, 1⟩

/-- Run a sequence of committed operations from the fresh database. -/
def run (ops : List Op) : InvState := ops.foldl step invInit

/-- Net ledger sum for one item: ENTRADA quantities minus SALIDA
quantities over the movement rows of that item. -/
def ledgerNet (moves : List InvMove) (id : Nat) : Int :=
  (moves.filter (fun m => m.item_id == id)).foldl
    (fun acc m => if m.move_type = "ENTRADA" then acc + m.qty else acc - m.qty) 0

/-- The signed contribution of one ledger row. -/
def moveDelta (m : InvMove) : Int :=
  if m.move_type = "ENTRADA" then m.qty else -m.qty

/-- The inductive invariant of the subsystem: every item's stock
reconciles with its creation quantity plus its ledger net, stocks are
nonnegative, item ids are pairwise distinct and below the serial counter,
and every ledger row points below the serial counter. -/
def Inv (st : InvState) : Prop :=
  (∀ it ∈ st.items, it.stock = it.initStock + ledgerNet st.moves it.id) ∧
  (∀ it ∈ st.items, 0 ≤ it.stock) ∧
  (∀ it ∈ st.items, it.id < st.nextItemId) ∧
  (st.items.map (fun it => it.id)).Nodup ∧
  (∀ m ∈ st.moves, m.item_id < st.nextItemId)

/-! ### Spec-side definition for the code generator (for refinement
comparison) and concrete inputs used by witnesses and counterexamples -/

/-- Sequence number of a code, parsed the same way the source parses it:
the integer after the first dash, 0 when absent or unparsable. -/
def specSeqOf (code : String) : Nat :=
  match (splitDash code.data).drop 1 with
  | [] => 0
  | p :: _ => (pyIntOpt p).getD 0

/-- Modelled from the spec's words ("look up the current maximum sequence
number among codes sharing the category's prefix, increment, zero-pad to
4 digits"): the numeric maximum of the sequence numbers, not the
string-greatest code. -/
def specNextCode (codes : List String) (pref : String) : String :=
  let seqs := (codes.filter (fun c => codeLike pref c)).map specSeqOf
  pref ++ "-" ++ pad4 (seqs.foldl Nat.max 0 + 1)

/-- An actor whose fields are already stripped and upper-case. -/
def u0 : InvUser := ⟨"X1", "Actor"⟩

/-- An actor whose code is lower-case and whose name has spaces. -/
def uLow : InvUser := ⟨"ab", " n "⟩

/-- Create one item with initial stock 10, then move 5 in. -/
def opsA : List Op := [.addItem "Ferretería" 1 "Tornillo M6" 10, .mov 1 "ENTRADA" 5 u0]

/-- The item reached by `opsA`. -/
def itA : InvItem := ⟨1, "F-0001", "Ferretería", "Tornillo M6", 1, 15, true, 10⟩

/-- Create one item, then soft-delete it. -/
def opsInactive : List Op := [.addItem "Ferretería" 1 "Tornillo" 3, .delItem 1]

/-- Create one active item at location 2. -/
def opsActive : List Op := [.addItem "Ferretería" 2 "Cinta" 5]

/-- Create one item with a positive initial stock and do nothing else. -/
def opsC1 : List Op := [.addItem "Ferretería" 1 "Tornillo M6" 5]

theorem ledgerNet_append (moves : List InvMove) (m : InvMove) (id : Nat) :
    ledgerNet (moves ++ [m]) id =
      ledgerNet moves id + (if m.item_id = id then moveDelta m else 0) := by
  simp only [ledgerNet, moveDelta, List.filter_append]
  by_cases h : m.item_id = id
  · have hb : (m.item_id == id) = true := by simpa using h
    simp only [List.filter_cons, List.filter_nil, hb]
    simp only [if_true, List.foldl_append, List.foldl_cons, List.foldl_nil, h, if_pos]
    split <;> ring
  · have hb : (m.item_id == id) = false := by simpa using h
    simp [List.filter_cons, hb, h]

theorem ledgerNet_eq_zero (moves : List InvMove) (id : Nat)
    (h : ∀ m ∈ moves, m.item_id ≠ id) : ledgerNet moves id = 0 := by
  unfold ledgerNet
  have hf : moves.filter (fun m => m.item_id == id) = [] := by
    rw [List.filter_eq_nil_iff]
    intro m hm
    simpa using h m hm
  rw [hf]
  rfl

theorem findItem_mem {st : InvState} {i : Nat} {row : InvItem}
    (hf : findItem st i = some row) : row ∈ st.items ∧ row.id = i := by
  unfold findItem at hf
  refine ⟨List.mem_of_find?_eq_some hf, ?_⟩
  have h2 := List.find?_some hf
  simpa using h2

theorem findActiveItem_mem {st : InvState} {i : Nat} {row : InvItem}
    (hf : findActiveItem st i = some row) :
    row ∈ st.items ∧ row.id = i ∧ row.active = true := by
  unfold findActiveItem at hf
  refine ⟨List.mem_of_find?_eq_some hf, ?_⟩
  have h2 := List.find?_some hf
  simp only [Bool.and_eq_true, beq_iff_eq] at h2
  exact h2

theorem find?_active_of_find? {i : Nat} {row : InvItem} :
    ∀ {l : List InvItem}, l.find? (fun it => it.id == i) = some row →
      row.active = true → l.find? (fun it => it.id == i && it.active) = some row := by
  intro l
  induction l with
  | nil => intro hf _; simp at hf
  | cons x xs ih =>
    intro hf ha
    cases hx : (x.id == i) with
    | true =>
      simp only [List.find?, hx, Bool.true_and] at hf ⊢
      have hrow : row = x := (Option.some.inj hf).symm
      subst hrow
      rw [ha]
    | false =>
      simp only [List.find?, hx, Bool.false_and] at hf ⊢
      exact ih hf ha

/-- If the first item with a given id is active, the `active=true` lookup
of `inv_adjust_submit` finds the same row as the plain lookup of
`inv_mov_submit`. -/
theorem findActiveItem_of_findItem {st : InvState} {i : Nat} {row : InvItem}
    (hf : findItem st i = some row) (ha : row.active = true) :
    findActiveItem st i = some row :=
  find?_active_of_find? hf ha

theorem setStock_map_id (items : List InvItem) (id : Nat) (v : Int) :
    (setStock items id v).map (fun it => it.id) = items.map (fun it => it.id) := by
  unfold setStock
  rw [List.map_map]
  congr 1
  funext it
  simp only [Function.comp]
  split <;> rfl

theorem id_unique {st : InvState} (hnd : (st.items.map (fun it => it.id)).Nodup)
    {a b : InvItem} (ha : a ∈ st.items) (hb : b ∈ st.items) (hid : a.id = b.id) :
    a = b :=
  List.inj_on_of_nodup_map hnd ha hb hid

/-- Committing one movement row against a present item preserves the
invariant, provided the new stock is the old stock plus the row's signed
delta and is nonnegative. -/
theorem Inv_apply_move (st : InvState) (row : InvItem) (m : InvMove) (ns : Int)
    (h : Inv st) (hrow : row ∈ st.items) (hmid : m.item_id = row.id)
    (hns : ns = row.stock + moveDelta m) (hnn : 0 ≤ ns) :
    Inv { st with items := setStock st.items row.id ns,
                  moves := st.moves ++ [m] } := by
  obtain ⟨hrec, hnn0, hlt, hnd, hmv⟩ := h
  refine ⟨?_, ?_, ?_, ?_, ?_⟩
  · intro it' hit'
    simp only [setStock] at hit'
    rw [List.mem_map] at hit'
    obtain ⟨it, hit, hform⟩ := hit'
    subst hform
    by_cases hid : it.id = row.id
    · have heq : it = row := id_unique hnd hit hrow hid
      subst heq
      have hb : (it.id == it.id) = true := by simp
      rw [if_pos hb]
      show ns = it.initStock + ledgerNet (st.moves ++ [m]) it.id
      rw [ledgerNet_append, if_pos hmid, hns, hrec it hit]
      ring
    · have hb : ¬((it.id == row.id) = true) := by simpa using hid
      rw [if_neg hb]
      show it.stock = it.initStock + ledgerNet (st.moves ++ [m]) it.id
      rw [ledgerNet_append, if_neg (fun hc => hid ((hmid ▸ hc).symm)), hrec it hit]
      ring
  · intro it' hit'
    simp only [setStock] at hit'
    rw [List.mem_map] at hit'
    obtain ⟨it, hit, hform⟩ := hit'
    subst hform
    split
    · exact hnn
    · exact hnn0 it hit
  · intro it' hit'
    simp only [setStock] at hit'
    rw [List.mem_map] at hit'
    obtain ⟨it, hit, hform⟩ := hit'
    subst hform
    have h3 : (if (it.id == row.id) = true then { it with stock := ns } else it).id = it.id := by
      split <;> rfl
    rw [h3]
    exact hlt it hit
  · show ((setStock st.items row.id ns).map (fun it => it.id)).Nodup
    rw [setStock_map_id]
    exact hnd
  · intro mm hmm'
    rcases List.mem_append.mp hmm' with hold | hnew
    · exact hmv mm hold
    · rw [List.mem_singleton] at hnew
      subst hnew
      rw [hmid]
      exact hlt row hrow

theorem inv_mov_submit_inv (st : InvState) (i : Nat) (mt : String) (q : Int)
    (u : InvUser) (h : Inv st) : Inv (inv_mov_submit st i mt q u).1 := by
  simp only [inv_mov_submit]
  split
  · exact h
  · rename_i hval
    rw [not_or, not_not] at hval
    obtain ⟨hAB, hq'⟩ := hval
    have hq : 0 < q := by omega
    split
    · exact h
    · rename_i row hfi
      obtain ⟨hmem, hid⟩ := findItem_mem hfi
      subst hid
      rcases hAB with h1 | h1 <;> rw [h1]
      · split
        · exact h
        · rw [if_pos rfl]
          exact Inv_apply_move st row _ _ h
            hmem rfl (by simp [moveDelta]) (by have := h.2.1 row hmem; omega)
      · split
        · exact h
        · rename_i hins
          rw [if_neg (by decide)]
          have hst : 0 ≤ row.stock - q := by
            rw [not_and] at hins
            have := hins rfl
            omega
          exact Inv_apply_move st row _ _ h
            hmem rfl (by simp [moveDelta, sub_eq_add_neg]) hst


theorem inv_adjust_submit_inv (st : InvState) (i : Nat) (delta : Int)
    (u : InvUser) (h : Inv st) : Inv (inv_adjust_submit st i delta u).1 := by
  simp only [inv_adjust_submit]
  split
  · exact h
  · rename_i hd0
    split
    · exact h
    · rename_i row hfa
      obtain ⟨hmem, hid, _⟩ := findActiveItem_mem hfa
      subst hid
      by_cases hdp : delta > 0
      · rw [if_pos hdp, if_pos rfl]
        split
        · exact h
        · rename_i hns0
          rw [not_lt] at hns0
          exact Inv_apply_move st row _ _ h hmem rfl (by simp [moveDelta]) hns0
      · have hSE : ¬ ("SALIDA" : String) = "ENTRADA" := by decide
        rw [if_neg hdp, if_neg hSE]
        split
        · exact h
        · rename_i hns0
          rw [not_lt] at hns0
          exact Inv_apply_move st row _ _ h hmem rfl
            (by simp [moveDelta, sub_eq_add_neg]) hns0

theorem insertItem_inv (st : InvState) (code cat desc : String) (lid : Nat)
    (q : Int) (h : Inv st) (hq : 0 ≤ q) : Inv (insertItem st code cat desc lid q) := by
  obtain ⟨hrec, hnn0, hlt, hnd, hmv⟩ := h
  refine ⟨?_, ?_, ?_, ?_, ?_⟩ <;> simp only [insertItem]
  · intro it' hit'
    rcases List.mem_append.mp hit' with hold | hnew
    · exact hrec it' hold
    · rw [List.mem_singleton] at hnew
      subst hnew
      show q = q + ledgerNet st.moves st.nextItemId
      rw [ledgerNet_eq_zero st.moves st.nextItemId
        (fun m hm => Nat.ne_of_lt (hmv m hm))]
      ring
  · intro it' hit'
    rcases List.mem_append.mp hit' with hold | hnew
    · exact hnn0 it' hold
    · rw [List.mem_singleton] at hnew
      subst hnew
      exact hq
  · intro it' hit'
    rcases List.mem_append.mp hit' with hold | hnew
    · exact Nat.lt_succ_of_lt (hlt it' hold)
    · rw [List.mem_singleton] at hnew
      subst hnew
      exact Nat.lt_succ_self _
  · simp only [List.map_append, List.map_cons, List.map_nil]
    rw [(List.perm_append_singleton _ _).nodup_iff]
    rw [List.nodup_cons]
    refine ⟨?_, hnd⟩
    intro hmem
    rw [List.mem_map] at hmem
    obtain ⟨it, hit, hidit⟩ := hmem
    exact absurd hidit (Nat.ne_of_lt (hlt it hit))
  · intro m hm
    exact Nat.lt_succ_of_lt (hmv m hm)

theorem inv_add_item_submit_inv (st : InvState) (c : String) (lid : Nat)
    (d : String) (q0 : Int) (h : Inv st) :
    Inv (inv_add_item_submit st c lid d q0).1 := by
  have hq : (0 : Int) ≤ if q0 < 0 then 0 else q0 := by split <;> omega
  simp only [inv_add_item_submit]
  split
  · exact insertItem_inv _ _ _ _ _ _ h hq
  · exact h

theorem inv_eliminar_do_inv (st : InvState) (id : Nat) (h : Inv st) :
    Inv (inv_eliminar_do st id) := by
  obtain ⟨hrec, hnn0, hlt, hnd, hmv⟩ := h
  refine ⟨?_, ?_, ?_, ?_, ?_⟩ <;> simp only [inv_eliminar_do]
  · intro it' hit'
    rw [List.mem_map] at hit'
    obtain ⟨it, hit, hform⟩ := hit'
    subst hform
    have h1 : (if (it.id == id) = true then { it with active := false } else it).stock
        = it.stock := by split <;> rfl
    have h2 : (if (it.id == id) = true then { it with active := false } else it).initStock
        = it.initStock := by split <;> rfl
    have h3 : (if (it.id == id) = true then { it with active := false } else it).id
        = it.id := by split <;> rfl
    rw [h1, h2, h3]
    exact hrec it hit
  · intro it' hit'
    rw [List.mem_map] at hit'
    obtain ⟨it, hit, hform⟩ := hit'
    subst hform
    have h1 : (if (it.id == id) = true then { it with active := false } else it).stock
        = it.stock := by split <;> rfl
    rw [h1]
    exact hnn0 it hit
  · intro it' hit'
    rw [List.mem_map] at hit'
    obtain ⟨it, hit, hform⟩ := hit'
    subst hform
    have h3 : (if (it.id == id) = true then { it with active := false } else it).id
        = it.id := by split <;> rfl
    rw [h3]
    exact hlt it hit
  · rw [List.map_map]
    have hcomp : ((fun it : InvItem => it.id) ∘
        fun it : InvItem => if (it.id == id) = true then { it with active := false } else it)
        = fun it : InvItem => it.id := by
      funext it
      simp only [Function.comp]
      split <;> rfl
    rw [hcomp]
    exact hnd
  · exact hmv

theorem inv_locations_add_inv (st : InvState) (n : String) (h : Inv st) :
    Inv (inv_locations_add st n).1 := by
  simp only [inv_locations_add]
  split
  · exact h
  · split
    · exact h
    · exact h

theorem inv_locations_delete_inv (st : InvState) (id : Nat) (h : Inv st) :
    Inv (inv_locations_delete st id).1 := by
  simp only [inv_locations_delete]
  split
  · exact h
  · exact h

theorem step_inv (st : InvState) (op : Op) (h : Inv st) : Inv (step st op) := by
  cases op with
  | addItem c lid d q => exact inv_add_item_submit_inv st c lid d q h
  | mov i mt q u => exact inv_mov_submit_inv st i mt q u h
  | adjust i d u => exact inv_adjust_submit_inv st i d u h
  | delItem i => exact inv_eliminar_do_inv st i h
  | locAdd n => exact inv_locations_add_inv st n h
  | locDelete i => exact inv_locations_delete_inv st i h

theorem Inv_foldl (ops : List Op) : ∀ st : InvState, Inv st → Inv (ops.foldl step st) := by
  induction ops with
  | nil => intro st h; exact h
  | cons op ops ih => intro st h; exact ih _ (step_inv st op h)

theorem Inv_invInit : Inv invInit := by
  refine ⟨?_, ?_, ?_, ?_, ?_⟩
  · intro it hit; simp [invInit] at hit
  · intro it hit; simp [invInit] at hit
  · intro it hit; simp [invInit] at hit
  · simp [invInit]
  · intro m hm; simp [invInit] at hm

/-- Every state reachable by a sequence of committed operations satisfies
the inductive invariant. -/
theorem Inv_run (ops : List Op) : Inv (run ops) :=
  Inv_foldl ops invInit Inv_invInit


/-! ### Claim C1 — ledger reconciliation -/

/-- C1 as stated is false on the code: `opsC1` creates an item with
initial stock 5 and writes no ledger row, so the reachable state has an
item whose stock (5) differs from its ledger net (0). -/
theorem C1_cex :
    (run opsC1).items = [⟨1, "F-0001", "Ferretería", "Tornillo M6", 1, 5, true, 5⟩] ∧
    (run opsC1).moves = [] ∧
    ledgerNet (run opsC1).moves 1 = 0 := by decide

/-- C1 (amended): after any sequence of committed operations, every
item's stock equals its creation quantity (the ghost `initStock`) plus
the net ledger sum (ENTRADA minus SALIDA) of its movement rows; the
stock equals the bare ledger net only for items created with initial
stock 0. -/
theorem C1_reconciliation_with_initial_stock (ops : List Op) :
    ∀ it ∈ (run ops).items,
      it.stock = it.initStock + ledgerNet (run ops).moves it.id :=
  (Inv_run ops).1

/-- The amended C1 at a concrete run: item 1 of `opsA` has stock 15 =
initial 10 plus ledger net 5. -/
theorem C1_witness :
    itA ∈ (run opsA).items ∧
    itA.stock = itA.initStock + ledgerNet (run opsA).moves itA.id :=
  ⟨by decide, C1_reconciliation_with_initial_stock opsA itA (by decide)⟩

/-! ### Claim C2 — non-negativity -/

/-- C2: stock is nonnegative after every committed operation sequence,
and a SALIDA (or negative adjustment) exceeding the current stock fails
with InsufficientStock leaving the state unchanged. -/
theorem C2_nonnegativity :
    (∀ ops : List Op, ∀ it ∈ (run ops).items, 0 ≤ it.stock) ∧
    (∀ (st : InvState) (i : Nat) (q : Int) (u : InvUser) (row : InvItem),
      findItem st i = some row → 0 < q → row.stock < q →
      inv_mov_submit st i "SALIDA" q u = (st, some .insufficientStock)) ∧
    (∀ (st : InvState) (i : Nat) (delta : Int) (u : InvUser) (row : InvItem),
      findActiveItem st i = some row → delta < 0 → row.stock < -delta →
      inv_adjust_submit st i delta u = (st, some .insufficientStock)) := by
  refine ⟨fun ops it h => (Inv_run ops).2.1 it h, ?_, ?_⟩
  · intro st i q u row hf hq hlt'
    have hs : pyUpper (pyStrip "SALIDA") = "SALIDA" := by decide
    have hq' : ¬ q ≤ 0 := by omega
    have hlt2 : row.stock - q < 0 := by omega
    simp [inv_mov_submit, hs, hf, hq', hlt2]
  · intro st i delta u row hfa hd hlt'
    have habs : |delta| = -delta := abs_of_neg hd
    have hd0 : ¬ delta = 0 := by omega
    have hdp : ¬ delta > 0 := by omega
    have hlt2 : row.stock - |delta| < 0 := by rw [habs]; omega
    simp [inv_adjust_submit, hfa, hd0, hdp, hlt2]

/-- The amended C2 at concrete inputs: stocks of the `opsA` run are
nonnegative, and an overdrawing SALIDA (and negative adjustment) against
item 1 (stock 15) fails with InsufficientStock and no state change. -/
theorem C2_witness :
    (0 ≤ itA.stock) ∧
    inv_mov_submit (run opsA) 1 "SALIDA" 99 u0 = (run opsA, some .insufficientStock) ∧
    inv_adjust_submit (run opsA) 1 (-99) u0 = (run opsA, some .insufficientStock) :=
  ⟨C2_nonnegativity.1 opsA itA (by decide),
   C2_nonnegativity.2.1 (run opsA) 1 99 u0 itA (by decide) (by decide) (by decide),
   C2_nonnegativity.2.2 (run opsA) 1 (-99) u0 itA (by decide) (by decide) (by decide)⟩

/-! ### Claim C3 — error atomicity -/

/-- C3: whenever `inv_mov_submit` or `inv_adjust_submit` reports any
failure, the returned state is exactly the input state (no partial
write). -/
theorem C3_error_atomicity :
    (∀ (st : InvState) (i : Nat) (mt : String) (q : Int) (u : InvUser) (e : InvErr),
      (inv_mov_submit st i mt q u).2 = some e → (inv_mov_submit st i mt q u).1 = st) ∧
    (∀ (st : InvState) (i : Nat) (d : Int) (u : InvUser) (e : InvErr),
      (inv_adjust_submit st i d u).2 = some e → (inv_adjust_submit st i d u).1 = st) := by
  constructor
  · intro st i mt q u e
    simp only [inv_mov_submit]
    repeat' split
    all_goals first
      | (intro _; rfl)
      | (intro he; simp at he)
  · intro st i d u e
    simp only [inv_adjust_submit]
    repeat' split
    all_goals first
      | (intro _; rfl)
      | (intro he; simp at he)

/-- C3 at concrete failing calls: an invalid movement quantity and a zero
adjustment both leave the fresh database untouched. -/
theorem C3_witness :
    (inv_mov_submit invInit 1 "ENTRADA" 0 u0).1 = invInit ∧
    (inv_adjust_submit invInit 1 0 u0).1 = invInit :=
  ⟨C3_error_atomicity.1 invInit 1 "ENTRADA" 0 u0 .invalidInput (by decide),
   C3_error_atomicity.2 invInit 1 0 u0 .invalidQuantity (by decide)⟩


/-- If even the unfiltered lookup finds nothing, the `active=true` lookup
finds nothing either. -/
theorem findActiveItem_none_of_none {st : InvState} {i : Nat}
    (h : findItem st i = none) : findActiveItem st i = none := by
  unfold findItem at h
  unfold findActiveItem
  rw [List.find?_eq_none] at h ⊢
  intro x hx hc
  rw [Bool.and_eq_true] at hc
  exact h x hx hc.1

/-! ### Claim C4 — movements against inactive items -/

/-- C4 as stated is false on the code: `inv_mov_submit` looks the item up
without an `active` filter, so a movement against the soft-deleted item
of `opsInactive` succeeds — stock changes from 3 to 8 and a ledger row is
appended — instead of failing with NotFound. -/
theorem C4_cex :
    (run opsInactive).items = [⟨1, "F-0001", "Ferretería", "Tornillo", 1, 3, false, 3⟩] ∧
    (inv_mov_submit (run opsInactive) 1 "ENTRADA" 5 u0).2 = none ∧
    (inv_mov_submit (run opsInactive) 1 "ENTRADA" 5 u0).1.items =
      [⟨1, "F-0001", "Ferretería", "Tornillo", 1, 8, false, 3⟩] ∧
    (inv_mov_submit (run opsInactive) 1 "ENTRADA" 5 u0).1.moves.length = 1 := by decide

/-- C4 (amended): only `inv_adjust_submit` rejects inactive items — when
no active item carries the id it fails NotFound with no state change —
while `inv_mov_submit` performs no active check at all: a valid movement
against any present item (active or not) commits and appends its ledger
row. -/
theorem C4_inactive_items :
    (∀ (st : InvState) (i : Nat) (d : Int) (u : InvUser),
      d ≠ 0 → findActiveItem st i = none →
      inv_adjust_submit st i d u = (st, some .notFound)) ∧
    (∀ (st : InvState) (i : Nat) (q : Int) (u : InvUser) (row : InvItem),
      0 < q → findItem st i = some row →
      (inv_mov_submit st i "ENTRADA" q u).2 = none ∧
      (inv_mov_submit st i "ENTRADA" q u).1.moves =
        st.moves ++ [⟨i, "ENTRADA", q, pyUpper (pyStrip u.codigo), pyStrip u.nombre⟩]) := by
  constructor
  · intro st i d u hd hfa
    simp [inv_adjust_submit, hfa, hd]
  · intro st i q u row hq hf
    have he : pyUpper (pyStrip "ENTRADA") = "ENTRADA" := by decide
    have hq' : ¬ q ≤ 0 := by omega
    simp [inv_mov_submit, he, hf, hq']

/-- The amended C4 at the `opsInactive` state: the adjustment fails
NotFound while the movement commits against the inactive item. -/
theorem C4_witness :
    inv_adjust_submit (run opsInactive) 1 (-2) u0 = (run opsInactive, some .notFound) ∧
    (inv_mov_submit (run opsInactive) 1 "ENTRADA" 5 u0).2 = none ∧
    (inv_mov_submit (run opsInactive) 1 "ENTRADA" 5 u0).1.moves =
      (run opsInactive).moves ++
        [⟨1, "ENTRADA", 5, pyUpper (pyStrip u0.codigo), pyStrip u0.nombre⟩] :=
  ⟨C4_inactive_items.1 (run opsInactive) 1 (-2) u0 (by decide) (by decide),
   C4_inactive_items.2 (run opsInactive) 1 5 u0
     ⟨1, "F-0001", "Ferretería", "Tornillo", 1, 3, false, 3⟩ (by decide) (by decide)⟩

/-! ### Claim C5 — adjustStock versus recordMovement -/

/-- C5 as stated is false on the code, in two ways exposed here: against
the inactive item of `opsInactive` the adjustment of −2 fails NotFound
while the translated SALIDA movement of 2 succeeds; and against the
active item of `opsActive`, the two write different ledger rows for the
same actor, because only `inv_mov_submit` strips and upper-cases the
actor fields. -/
theorem C5_cex :
    (inv_adjust_submit (run opsInactive) 1 (-2) uLow).2 = some .notFound ∧
    (inv_mov_submit (run opsInactive) 1 "SALIDA" 2 uLow).2 = none ∧
    (inv_adjust_submit (run opsActive) 1 2 uLow).1.moves = [⟨1, "ENTRADA", 2, "ab", " n "⟩] ∧
    (inv_mov_submit (run opsActive) 1 "ENTRADA" 2 uLow).1.moves =
      [⟨1, "ENTRADA", 2, "AB", "n"⟩] := by decide

/-- C5 (amended): a zero delta fails InvalidQuantity without touching the
state; and for a nonzero delta the translation holds under two extra
conditions the claim omits — every item carrying the id is active with
nonnegative stock, and the actor's fields are fixed points of the
strip/upper-case normalisation that only `inv_mov_submit` applies. -/
theorem C5_adjust_equiv_mov :
    (∀ (st : InvState) (i : Nat) (u : InvUser),
      inv_adjust_submit st i 0 u = (st, some .invalidQuantity)) ∧
    (∀ (st : InvState) (i : Nat) (d : Int) (u : InvUser),
      d ≠ 0 →
      (∀ it ∈ st.items, it.id = i → it.active = true ∧ 0 ≤ it.stock) →
      pyUpper (pyStrip u.codigo) = u.codigo →
      pyStrip u.nombre = u.nombre →
      inv_adjust_submit st i d u =
        inv_mov_submit st i (if d > 0 then "ENTRADA" else "SALIDA") |d| u) := by
  constructor
  · intro st i u
    simp [inv_adjust_submit]
  · intro st i d u hd hact huc hun
    have he : pyUpper (pyStrip "ENTRADA") = "ENTRADA" := by decide
    have hs : pyUpper (pyStrip "SALIDA") = "SALIDA" := by decide
    have hq' : ¬ |d| ≤ 0 := by
      have := abs_pos.mpr hd
      omega
    cases hfi : findItem st i with
    | none =>
      have hfa : findActiveItem st i = none := findActiveItem_none_of_none hfi
      by_cases hdp : d > 0
      · rw [if_pos hdp]
        simp [inv_adjust_submit, inv_mov_submit, hfi, hfa, he, hd, hdp, hq']
      · rw [if_neg hdp]
        simp [inv_adjust_submit, inv_mov_submit, hfi, hfa, hs, hd, hdp, hq']
    | some row =>
      obtain ⟨hmem, hid⟩ := findItem_mem hfi
      obtain ⟨hactive, hstock⟩ := hact row hmem hid
      have hfa : findActiveItem st i = some row := findActiveItem_of_findItem hfi hactive
      by_cases hdp : d > 0
      · rw [if_pos hdp]
        have hnn : ¬ row.stock + |d| < 0 := by
          have := abs_nonneg d
          omega
        simp [inv_adjust_submit, inv_mov_submit, hfi, hfa, he, hd, hdp, hq', hnn, huc, hun]
      · rw [if_neg hdp]
        by_cases hns : row.stock - |d| < 0
        · simp [inv_adjust_submit, inv_mov_submit, hfi, hfa, hs, hd, hdp, hq', hns]
        · simp [inv_adjust_submit, inv_mov_submit, hfi, hfa, hs, hd, hdp, hq', hns, huc, hun]

/-- The amended C5 at concrete inputs: with the already-normalised actor
`u0` and the active item of `opsActive`, the adjustment of +2 equals the
translated ENTRADA movement of 2, and the zero delta fails
InvalidQuantity. -/
theorem C5_witness :
    inv_adjust_submit (run opsActive) 1 2 u0 = inv_mov_submit (run opsActive) 1 "ENTRADA" 2 u0 ∧
    inv_adjust_submit (run opsActive) 1 0 u0 = (run opsActive, some .invalidQuantity) := by
  constructor
  · have h := C5_adjust_equiv_mov.2 (run opsActive) 1 2 u0
      (by decide) (by decide) (by decide) (by decide)
    simpa using h
  · exact C5_adjust_equiv_mov.1 (run opsActive) 1 u0


/-! ### Claim C7 — location deactivation guard -/

/-- C7: `inv_locations_delete` fails with LocationInUse exactly when some
active item references the location, and otherwise succeeds and clears
the location's active flag. -/
theorem C7_location_delete_guard (st : InvState) (id : Nat) :
    ((inv_locations_delete st id).2 = some .locationInUse ↔
      ∃ it ∈ st.items, it.active = true ∧ it.location_id = id) ∧
    ((¬ ∃ it ∈ st.items, it.active = true ∧ it.location_id = id) →
      (inv_locations_delete st id).2 = none ∧
      ∀ l ∈ (inv_locations_delete st id).1.locations,
        l.id = id → l.active = false) := by
  have key : 0 < (st.items.filter (fun it => it.active && it.location_id == id)).length ↔
      ∃ it ∈ st.items, it.active = true ∧ it.location_id = id := by
    rw [← List.countP_eq_length_filter, List.countP_pos_iff]
    constructor
    · rintro ⟨a, ha, hpa⟩
      rw [Bool.and_eq_true, beq_iff_eq] at hpa
      exact ⟨a, ha, hpa⟩
    · rintro ⟨a, ha, h1, h2⟩
      exact ⟨a, ha, by rw [Bool.and_eq_true, beq_iff_eq]; exact ⟨h1, h2⟩⟩
  constructor
  · by_cases hc : 0 < (st.items.filter (fun it => it.active && it.location_id == id)).length
    · simp only [inv_locations_delete, if_pos hc]
      simpa using key.mp hc
    · simp only [inv_locations_delete, if_neg hc]
      constructor
      · intro h
        simp at h
      · intro hex
        exact absurd (key.mpr hex) hc
  · intro hne
    have hc : ¬ 0 < (st.items.filter (fun it => it.active && it.location_id == id)).length :=
      fun hp => hne (key.mp hp)
    simp only [inv_locations_delete, if_neg hc]
    refine ⟨by trivial, ?_⟩
    intro l hl hid
    rw [List.mem_map] at hl
    obtain ⟨l0, hl0, hform⟩ := hl
    subst hform
    by_cases hb : (l0.id == id) = true
    · rw [if_pos hb]
    · rw [if_neg hb] at hid ⊢
      exact absurd (by simpa using hid) hb

/-- C7 at a concrete state: location 3 of the `opsActive` run (whose only
item sits at location 2) deactivates successfully. -/
theorem C7_witness :
    (inv_locations_delete (run opsActive) 3).2 = none :=
  ((C7_location_delete_guard (run opsActive) 3).2 (by decide)).1

/-! ### Claim C8 — createLocation and duplicate names -/

/-- C8 as stated is false on the code: adding the name `Caja 1`, which
the seeded database already holds as an active location, does not fail
with any duplicate-name error — the upsert reports success and the state
is unchanged (and no new row is created). -/
theorem C8_cex :
    invInit.locations.contains ⟨1, "Caja 1", true⟩ = true ∧
    (inv_locations_add invInit "Caja 1").2 = none ∧
    (inv_locations_add invInit "Caja 1").1 = invInit := by decide

/-- C8 (amended): `inv_locations_add` never reports a duplicate name.  An
empty stripped name is rejected; when any location (active or inactive)
already carries the name, the upsert succeeds, creates no row and leaves
that location active; otherwise a fresh active row is appended. -/
theorem C8_location_add (st : InvState) (name0 : String) :
    (pyStrip name0 = "" → inv_locations_add st name0 = (st, some .emptyName)) ∧
    (pyStrip name0 ≠ "" →
      (st.locations.any (fun l => l.name == pyStrip name0) = true →
        (inv_locations_add st name0).2 = none ∧
        (inv_locations_add st name0).1.locations.length = st.locations.length ∧
        ∀ l ∈ (inv_locations_add st name0).1.locations,
          l.name = pyStrip name0 → l.active = true) ∧
      (st.locations.any (fun l => l.name == pyStrip name0) = false →
        inv_locations_add st name0 =
          ({ st with locations := st.locations ++ [⟨st.nextLocId, pyStrip name0, true⟩],
                     nextLocId := st.nextLocId + 1 }, none))) := by
  refine ⟨?_, ?_⟩
  · intro h0
    simp [inv_locations_add, h0]
  · intro hne
    refine ⟨?_, ?_⟩
    · intro hany
      simp only [inv_locations_add, if_neg hne, if_pos hany]
      refine ⟨by trivial, by rw [List.length_map], ?_⟩
      intro l hl hname
      rw [List.mem_map] at hl
      obtain ⟨l0, hl0, hform⟩ := hl
      subst hform
      by_cases hb : (l0.name == pyStrip name0) = true
      · rw [if_pos hb]
      · rw [if_neg hb] at hname ⊢
        exact absurd (by simpa using hname) hb
    · intro hany
      simp [inv_locations_add, hne, hany]

/-- The amended C8 at concrete inputs: a fresh name is appended as a new
row, while re-adding the seeded `Caja 1` succeeds without growing the
table. -/
theorem C8_witness :
    inv_locations_add invInit "Nueva" =
      ({ invInit with
          locations := invInit.locations ++ [⟨invInit.nextLocId, pyStrip "Nueva", true⟩],
          nextLocId := invInit.nextLocId + 1 }, none) ∧
    (inv_locations_add invInit "Caja 1").2 = none ∧
    (inv_locations_add invInit "Caja 1").1.locations.length = invInit.locations.length :=
  ⟨((C8_location_add invInit "Nueva").2 (by decide)).2 (by decide),
   (((C8_location_add invInit "Caja 1").2 (by decide)).1 (by decide)).1,
   (((C8_location_add invInit "Caja 1").2 (by decide)).1 (by decide)).2.1⟩

/-! ### Claim C9 — unknown categories -/

/-- C9 as stated is false on the code: no category validation exists.
`Bogus` is not one of the five categories, yet the creation succeeds, the
prefix silently falls back to `V`, and the item is persisted with the
unknown category text. -/
theorem C9_cex :
    INV_CATEGORIES.all (fun p => p.1 != "Bogus") = true ∧
    inv_add_item_submit invInit "Bogus" 1 "Thing" 2 =
      (⟨seedLocations, [⟨1, "V-0001", "Bogus", "Thing", 1, 2, true, 2⟩], [], 21, 2⟩, none) := by
  decide

/-- C9 (amended): a category outside the fixed table is not rejected —
`inv_category_prefix` falls back to `V` and, when the insert violates no
constraint, the item is persisted with the caller's category text and a
`V`-prefixed code. -/
theorem C9_unknown_category (st : InvState) (cat0 : String) (lid : Nat)
    (desc0 : String) (q0 : Int)
    (hu : INV_CATEGORIES.all (fun p => p.1 != pyStrip cat0) = true)
    (hins : itemInsertOk st
      (inv_generate_next_code (st.items.map (fun it => it.code)) (pyStrip cat0)) lid = true) :
    inv_category_prefix (pyStrip cat0) = "V" ∧
    inv_add_item_submit st cat0 lid desc0 q0 =
      (insertItem st
        (inv_generate_next_code (st.items.map (fun it => it.code)) (pyStrip cat0))
        (pyStrip cat0) (pyStrip desc0) lid (if q0 < 0 then 0 else q0), none) := by
  constructor
  · unfold inv_category_prefix
    have hnone : INV_CATEGORIES.find? (fun p => p.1 == pyStrip cat0) = none := by
      rw [List.find?_eq_none]
      intro p hp
      rw [List.all_eq_true] at hu
      have := hu p hp
      simpa using this
    rw [hnone]
  · simp [inv_add_item_submit, hins]

/-- The amended C9 at a concrete call with the unknown category
`Extraño`. -/
theorem C9_witness :
    inv_category_prefix (pyStrip "Extraño") = "V" ∧
    inv_add_item_submit invInit "Extraño" 1 "Cosa" 7 =
      (insertItem invInit
        (inv_generate_next_code (invInit.items.map (fun it => it.code)) (pyStrip "Extraño"))
        (pyStrip "Extraño") (pyStrip "Cosa") 1 (if (7 : Int) < 0 then 0 else 7), none) :=
  C9_unknown_category invInit "Extraño" 1 "Cosa" 7 (by decide) (by decide)

/-! ### Claim C10 — negative initial stock is clamped -/

/-- C10: a creation request with a negative quantity still succeeds — the
quantity is silently clamped to 0, the item is persisted with stock 0,
and no error is reported. -/
theorem C10_negative_initial_clamped (st : InvState) (cat0 : String) (lid : Nat)
    (desc0 : String) (q0 : Int) (hq : q0 < 0)
    (hins : itemInsertOk st
      (inv_generate_next_code (st.items.map (fun it => it.code)) (pyStrip cat0)) lid = true) :
    (inv_add_item_submit st cat0 lid desc0 q0).2 = none ∧
    (inv_add_item_submit st cat0 lid desc0 q0).1.items =
      st.items ++ [⟨st.nextItemId,
        inv_generate_next_code (st.items.map (fun it => it.code)) (pyStrip cat0),
        pyStrip cat0, pyStrip desc0, lid, 0, true, 0⟩] := by
  simp [inv_add_item_submit, hins, insertItem, if_pos hq]

/-- C10 at a concrete call: creating with quantity −5 succeeds and the
persisted stock is 0. -/
theorem C10_witness :
    (inv_add_item_submit invInit "Ferretería" 1 "Tuerca" (-5)).2 = none ∧
    (inv_add_item_submit invInit "Ferretería" 1 "Tuerca" (-5)).1.items =
      invInit.items ++ [⟨invInit.nextItemId,
        inv_generate_next_code (invInit.items.map (fun it => it.code)) (pyStrip "Ferretería"),
        pyStrip "Ferretería", pyStrip "Tuerca", 1, 0, true, 0⟩] :=
  C10_negative_initial_clamped invInit "Ferretería" 1 "Tuerca" (-5) (by decide) (by decide)


/-! ### Claim C6 — code generation: digit-string arithmetic -/

theorem char_digit_bounds {c : Char} (h : c.isDigit = true) :
    48 ≤ c.toNat ∧ c.toNat ≤ 57 := by
  unfold Char.isDigit at h
  rw [Bool.and_eq_true, decide_eq_true_eq, decide_eq_true_eq] at h
  exact ⟨h.1, h.2⟩

theorem digit_ne_dash {c : Char} (h : c.isDigit = true) : ¬ c = '-' := by
  intro hc
  subst hc
  have hb := char_digit_bounds h
  have h45 : ('-').toNat = 45 := rfl
  omega

theorem dash_not_mem_of_digits {s : List Char} (h : s.all Char.isDigit = true) :
    ¬ '-' ∈ s := by
  intro hm
  rw [List.all_eq_true] at h
  exact digit_ne_dash (h '-' hm) rfl

theorem digitChar_toNat {d : Nat} (h : d < 10) : (digitChar d).toNat = 48 + d := by
  interval_cases d <;> decide

theorem digitChar_isDigit {d : Nat} (h : d < 10) : (digitChar d).isDigit = true := by
  interval_cases d <;> decide

theorem digitsVal_foldl_acc (l : List Char) : ∀ a : Nat,
    l.foldl (fun n c => 10 * n + (c.toNat - 48)) a =
      a * 10 ^ l.length + l.foldl (fun n c => 10 * n + (c.toNat - 48)) 0 := by
  induction l with
  | nil => intro a; simp
  | cons c cs ih =>
    intro a
    simp only [List.foldl_cons, List.length_cons]
    rw [ih (10 * a + (c.toNat - 48)), ih (10 * 0 + (c.toNat - 48)), pow_succ]
    ring

theorem digitsVal_cons (c : Char) (cs : List Char) :
    digitsVal (c :: cs) = (c.toNat - 48) * 10 ^ cs.length + digitsVal cs := by
  unfold digitsVal
  simp only [List.foldl_cons]
  rw [digitsVal_foldl_acc]
  ring_nf

theorem digitsVal_append_singleton (l : List Char) (c : Char) :
    digitsVal (l ++ [c]) = 10 * digitsVal l + (c.toNat - 48) := by
  unfold digitsVal
  rw [List.foldl_append]
  simp

theorem digitsVal_lt (l : List Char) (h : l.all Char.isDigit = true) :
    digitsVal l < 10 ^ l.length := by
  induction l with
  | nil => simp [digitsVal]
  | cons c cs ih =>
    rw [List.all_cons, Bool.and_eq_true] at h
    rw [digitsVal_cons, List.length_cons, pow_succ]
    have hc := char_digit_bounds h.1
    have hv := ih h.2
    have h9 : c.toNat - 48 ≤ 9 := by omega
    calc (c.toNat - 48) * 10 ^ cs.length + digitsVal cs
        < (c.toNat - 48) * 10 ^ cs.length + 10 ^ cs.length := by omega
      _ = (c.toNat - 48 + 1) * 10 ^ cs.length := by ring
      _ ≤ 10 * 10 ^ cs.length := by
            exact Nat.mul_le_mul_right _ (by omega)
      _ = 10 ^ cs.length * 10 := by ring

theorem natDigitsF_spec : ∀ fuel n, n < fuel →
    digitsVal (natDigitsF fuel n) = n ∧
    (natDigitsF fuel n).all Char.isDigit = true ∧
    natDigitsF fuel n ≠ [] := by
  intro fuel
  induction fuel with
  | zero => intro n h; omega
  | succ f ih =>
    intro n h
    by_cases h10 : n < 10
    · simp only [natDigitsF, if_pos h10]
      refine ⟨?_, ?_, by simp⟩
      · rw [show [digitChar n] = [] ++ [digitChar n] from rfl, digitsVal_append_singleton]
        rw [digitChar_toNat h10]
        simp [digitsVal]
      · simp [digitChar_isDigit h10]
    · simp only [natDigitsF, if_neg h10]
      have hdiv : n / 10 < f := by
        have h1 : n / 10 < n := Nat.div_lt_self (by omega) (by omega)
        omega
      obtain ⟨hv, hd, hne⟩ := ih (n / 10) hdiv
      refine ⟨?_, ?_, by simp⟩
      · rw [digitsVal_append_singleton, hv, digitChar_toNat (Nat.mod_lt _ (by omega))]
        omega
      · rw [List.all_append, hd]
        simp [digitChar_isDigit (Nat.mod_lt n (by omega))]

theorem natDigits_val (n : Nat) : digitsVal (natDigits n) = n :=
  (natDigitsF_spec (n + 1) n (Nat.lt_succ_self n)).1

theorem natDigits_all_digits (n : Nat) : (natDigits n).all Char.isDigit = true :=
  (natDigitsF_spec (n + 1) n (Nat.lt_succ_self n)).2.1

theorem natDigitsF_length_le : ∀ k n fuel, n < fuel → n < 10 ^ k → 1 ≤ k →
    (natDigitsF fuel n).length ≤ k := by
  intro k
  induction k with
  | zero => intro n fuel _ _ hk; omega
  | succ k ih =>
    intro n fuel hf hn _
    cases fuel with
    | zero => omega
    | succ f =>
      by_cases h10 : n < 10
      · simp only [natDigitsF, if_pos h10, List.length_singleton]
        omega
      · simp only [natDigitsF, if_neg h10, List.length_append, List.length_singleton]
        have hdiv : n / 10 < f := by
          have h1 : n / 10 < n := Nat.div_lt_self (by omega) (by omega)
          omega
        have hdp : n / 10 < 10 ^ k := by
          rw [Nat.div_lt_iff_lt_mul (by omega)]
          rw [pow_succ] at hn
          omega
      
        have hk1 : 1 ≤ k := by
          by_contra hk0
          have : k = 0 := by omega
          subst this
          simp at hn
          omega
        have := ih (n / 10) f hdiv hdp hk1
        omega

theorem natDigitsF_length_ge : ∀ k n fuel, n < fuel → 10 ^ k ≤ n →
    k + 1 ≤ (natDigitsF fuel n).length := by
  intro k
  induction k with
  | zero =>
    intro n fuel hf hn
    cases fuel with
    | zero => omega
    | succ f =>
      by_cases h10 : n < 10
      · simp [natDigitsF, if_pos h10]
      · simp [natDigitsF, if_neg h10]
  | succ k ih =>
    intro n fuel hf hn
    cases fuel with
    | zero => omega
    | succ f =>
      have h10 : ¬ n < 10 := by
        have : (10 : Nat) ≤ 10 ^ (k + 1) := by
          calc (10 : Nat) = 10 ^ 1 := by ring
            _ ≤ 10 ^ (k + 1) := Nat.pow_le_pow_right (by omega) (by omega)
        omega
      simp only [natDigitsF, if_neg h10, List.length_append, List.length_singleton]
      have hdiv : n / 10 < f := by
        have h1 : n / 10 < n := Nat.div_lt_self (by omega) (by omega)
        omega
      have hdp : 10 ^ k ≤ n / 10 := by
        rw [Nat.le_div_iff_mul_le (by omega)]
        rw [pow_succ] at hn
        omega
      have := ih (n / 10) f hdiv hdp
      omega

theorem digitsVal_zeros_prepend : ∀ (k : Nat) (l : List Char),
    digitsVal (List.replicate k '0' ++ l) = digitsVal l := by
  intro k
  induction k with
  | zero => intro l; rfl
  | succ k ih =>
    intro l
    show digitsVal ('0' :: (List.replicate k '0' ++ l)) = digitsVal l
    unfold digitsVal
    simp only [List.foldl_cons]
    show digitsVal (List.replicate k '0' ++ l) = digitsVal l
    exact ih l

theorem pad4_val (n : Nat) :
    digitsVal (pad4 n).data = n ∧ (pad4 n).data.all Char.isDigit = true ∧
    (pad4 n).data ≠ [] := by
  show digitsVal (List.replicate (4 - (natDigits n).length) '0' ++ natDigits n) = n ∧ _ ∧ _
  refine ⟨?_, ?_, ?_⟩
  · rw [digitsVal_zeros_prepend, natDigits_val]
  · show (List.replicate (4 - (natDigits n).length) '0' ++ natDigits n).all Char.isDigit = true
    rw [List.all_append, Bool.and_eq_true]
    constructor
    · rw [List.all_eq_true]
      intro c hc
      rw [List.eq_of_mem_replicate hc]
      decide
    · exact natDigits_all_digits n
  · show List.replicate (4 - (natDigits n).length) '0' ++ natDigits n ≠ []
    intro hc
    rw [List.append_eq_nil] at hc
    exact (natDigitsF_spec (n + 1) n (Nat.lt_succ_self n)).2.2 hc.2

theorem pad4_length_of_le (n : Nat) (h : n ≤ 9999) : (pad4 n).data.length = 4 := by
  have hle : (natDigits n).length ≤ 4 :=
    natDigitsF_length_le 4 n (n + 1) (Nat.lt_succ_self n) (by omega) (by omega)
  show (List.replicate (4 - (natDigits n).length) '0' ++ natDigits n).length = 4
  rw [List.length_append, List.length_replicate]
  omega

theorem pad4_length_of_ge (n : Nat) (h : 10000 ≤ n) : 5 ≤ (pad4 n).data.length := by
  have hge : 5 ≤ (natDigits n).length :=
    natDigitsF_length_ge 4 n (n + 1) (Nat.lt_succ_self n) (by norm_num; omega)
  show 5 ≤ (List.replicate (4 - (natDigits n).length) '0' ++ natDigits n).length
  rw [List.length_append, List.length_replicate]
  omega


/-! ### Claim C6 — splitting, parsing and the string order -/

theorem splitDash_no_dash (l : List Char) (h : ¬ '-' ∈ l) : splitDash l = [l] := by
  induction l with
  | nil => rfl
  | cons c cs ih =>
    rw [List.mem_cons, not_or] at h
    have hc : ¬ c = '-' := fun hc => h.1 hc.symm
    simp only [splitDash, if_neg hc]
    rw [ih h.2]

theorem splitDash_append (p s : List Char) (hp : ¬ '-' ∈ p) :
    splitDash (p ++ '-' :: s) = p :: splitDash s := by
  induction p with
  | nil =>
    show splitDash ('-' :: s) = [] :: splitDash s
    simp [splitDash]
  | cons c cs ih =>
    rw [List.mem_cons, not_or] at hp
    have hc : ¬ c = '-' := fun hc => hp.1 hc.symm
    show splitDash (c :: (cs ++ '-' :: s)) = (c :: cs) :: splitDash s
    simp only [splitDash, if_neg hc]
    rw [ih hp.2]

theorem splitDash_ne_nil (l : List Char) : splitDash l ≠ [] := by
  cases l with
  | nil => simp [splitDash]
  | cons c cs =>
    simp only [splitDash]
    split
    · simp
    · split
      · simp
      · simp

theorem specSeqOf_eq (c : String) (p s : List Char)
    (hc : c.data = p ++ '-' :: s) (hp : ¬ '-' ∈ p)
    (hs : s ≠ []) (hdig : s.all Char.isDigit = true) :
    specSeqOf c = digitsVal s := by
  unfold specSeqOf
  rw [hc, splitDash_append p s hp, List.drop_one, List.tail_cons]
  rw [splitDash_no_dash s (dash_not_mem_of_digits hdig)]
  show (pyIntOpt s).getD 0 = digitsVal s
  unfold pyIntOpt
  rw [if_pos ⟨hs, hdig⟩]
  rfl

theorem strLtB_append_left (l : List Char) : ∀ s t : List Char,
    strLtB (l ++ s) (l ++ t) = strLtB s t := by
  induction l with
  | nil => intro s t; rfl
  | cons c cs ih =>
    intro s t
    show (if c.toNat < c.toNat then true
      else if c.toNat < c.toNat then false
      else strLtB (cs ++ s) (cs ++ t)) = strLtB s t
    rw [if_neg (lt_irrefl _), if_neg (lt_irrefl _), ih]

theorem strLtB_digits : ∀ s t : List Char, s.length = t.length →
    s.all Char.isDigit = true → t.all Char.isDigit = true →
    (strLtB s t = true ↔ digitsVal s < digitsVal t) := by
  intro s
  induction s with
  | nil =>
    intro t hlen _ _
    have : t = [] := List.eq_nil_of_length_eq_zero hlen.symm
    subst this
    simp [strLtB, digitsVal]
  | cons a as ih =>
    intro t hlen hs ht
    cases t with
    | nil => simp at hlen
    | cons b bs =>
      rw [List.length_cons, List.length_cons] at hlen
      have hlen' : as.length = bs.length := by omega
      rw [List.all_cons, Bool.and_eq_true] at hs ht
      have ha := char_digit_bounds hs.1
      have hb := char_digit_bounds ht.1
      have hva := digitsVal_lt as hs.2
      have hvb := digitsVal_lt bs ht.2
      rw [digitsVal_cons, digitsVal_cons, hlen']
      show (if a.toNat < b.toNat then true
        else if b.toNat < a.toNat then false
        else strLtB as bs) = true ↔ _
      by_cases h1 : a.toNat < b.toNat
      · rw [if_pos h1]
        simp only [true_iff]
        have hstep : a.toNat - 48 + 1 ≤ b.toNat - 48 := by omega
        calc (a.toNat - 48) * 10 ^ bs.length + digitsVal as
            < (a.toNat - 48 + 1) * 10 ^ bs.length := by
              rw [hlen'] at hva
              ring_nf
              omega
          _ ≤ (b.toNat - 48) * 10 ^ bs.length := Nat.mul_le_mul_right _ hstep
          _ ≤ (b.toNat - 48) * 10 ^ bs.length + digitsVal bs := Nat.le_add_right _ _
      · rw [if_neg h1]
        by_cases h2 : b.toNat < a.toNat
        · rw [if_pos h2]
          simp only [Bool.false_eq_true, false_iff, not_lt]
          have hstep : b.toNat - 48 + 1 ≤ a.toNat - 48 := by omega
          refine le_of_lt ?_
          calc (b.toNat - 48) * 10 ^ bs.length + digitsVal bs
              < (b.toNat - 48 + 1) * 10 ^ bs.length := by
                ring_nf
                omega
            _ ≤ (a.toNat - 48) * 10 ^ bs.length := Nat.mul_le_mul_right _ hstep
            _ ≤ (a.toNat - 48) * 10 ^ bs.length + digitsVal as := Nat.le_add_right _ _
        · rw [if_neg h2]
          have hab : a.toNat - 48 = b.toNat - 48 := by omega
          rw [hab, ih bs hlen' hs.2 ht.2]
          omega


/-! ### Claim C6 — prefixes, decomposition and the fold maximum -/

theorem inv_category_prefix_mem (cat : String) :
    inv_category_prefix cat ∈ (["E", "F", "P", "A", "V"] : List String) := by
  unfold inv_category_prefix
  cases h1 : INV_CATEGORIES.find? (fun p => p.1 == cat) with
  | none => decide
  | some p =>
    have hp := List.mem_of_find?_eq_some h1
    simp only [INV_CATEGORIES, List.mem_cons, List.not_mem_nil, or_false] at hp
    rcases hp with h | h | h | h | h
    all_goals subst h
    all_goals decide

theorem dash_not_mem_prefData (cat : String) :
    ¬ '-' ∈ ( inv_category_prefix cat).data := by
  have h := inv_category_prefix_mem cat
  simp only [List.mem_cons, List.not_mem_nil, or_false] at h
  rcases h with h | h | h | h | h <;> rw [h] <;> decide

theorem codeLike_decomp {pref c : String} (h : codeLike pref c = true) :
    c.data = pref.data ++ '-' :: c.data.drop (pref.data.length + 1) := by
  unfold codeLike at h
  rw [List.isPrefixOf_iff_prefix] at h
  obtain ⟨t, ht⟩ := h
  have hlen : (pref.data ++ ['-']).length = pref.data.length + 1 := by
    rw [List.length_append, List.length_singleton]
  have hdrop : c.data.drop (pref.data.length + 1) = t := by
    rw [← ht, ← hlen, List.drop_left]
  rw [hdrop, ← ht, List.append_assoc]
  rfl

theorem codeLike_gen (pref t : String) : codeLike pref (pref ++ "-" ++ t) = true := by
  unfold codeLike
  rw [List.isPrefixOf_iff_prefix]
  show (pref.data ++ ['-']) <+: ((pref.data ++ ['-']) ++ t.data)
  exact List.prefix_append _ _

theorem bmaxCode_form {pref : String} (hd : ¬ '-' ∈ pref.data) {a b : String}
    {sa sb : List Char}
    (hae : a.data = pref.data ++ '-' :: sa) (ha4 : sa.length = 4)
    (hadg : sa.all Char.isDigit = true)
    (hbe : b.data = pref.data ++ '-' :: sb) (hb4 : sb.length = 4)
    (hbdg : sb.all Char.isDigit = true) :
    (bmaxCode a b = a ∨ bmaxCode a b = b) ∧
    specSeqOf (bmaxCode a b) = Nat.max (specSeqOf a) (specSeqOf b) := by
  have hane : sa ≠ [] := by intro hn; rw [hn] at ha4; simp at ha4
  have hbne : sb ≠ [] := by intro hn; rw [hn] at hb4; simp at hb4
  have hsa : specSeqOf a = digitsVal sa := specSeqOf_eq a _ _ hae hd hane hadg
  have hsb : specSeqOf b = digitsVal sb := specSeqOf_eq b _ _ hbe hd hbne hbdg
  have horder : strLtB a.data b.data = true ↔ digitsVal sa < digitsVal sb := by
    rw [hae, hbe]
    have h1 : pref.data ++ '-' :: sa = (pref.data ++ ['-']) ++ sa := by
      rw [List.append_assoc]; rfl
    have h2 : pref.data ++ '-' :: sb = (pref.data ++ ['-']) ++ sb := by
      rw [List.append_assoc]; rfl
    rw [h1, h2, strLtB_append_left]
    exact strLtB_digits sa sb (by omega) hadg hbdg
  unfold bmaxCode
  by_cases hlt : strLtB a.data b.data = true
  · rw [if_pos hlt]
    have hv := horder.mp hlt
    refine ⟨Or.inr rfl, ?_⟩
    rw [hsa, hsb]
    exact (Nat.max_eq_right (le_of_lt hv)).symm
  · rw [if_neg hlt]
    have hv : ¬ digitsVal sa < digitsVal sb := fun hc => hlt (horder.mpr hc)
    refine ⟨Or.inl rfl, ?_⟩
    rw [hsa, hsb]
    exact (Nat.max_eq_left (by omega)).symm

theorem foldl_bmax_spec {pref : String} (hd : ¬ '-' ∈ pref.data) :
    ∀ (cs : List String) (c : String),
    (∀ x ∈ c :: cs, ∃ s : List Char, x.data = pref.data ++ '-' :: s ∧
      s.length = 4 ∧ s.all Char.isDigit = true) →
    specSeqOf (cs.foldl bmaxCode c) = (cs.map specSeqOf).foldl Nat.max (specSeqOf c) ∧
    (∃ s : List Char, (cs.foldl bmaxCode c).data = pref.data ++ '-' :: s ∧
      s.length = 4 ∧ s.all Char.isDigit = true) := by
  intro cs
  induction cs with
  | nil =>
    intro c h
    exact ⟨rfl, h c (by simp)⟩
  | cons x xs ih =>
    intro c h
    obtain ⟨sc, hce, hc4, hcd⟩ := h c (by simp)
    obtain ⟨sx, hxe, hx4, hxd⟩ := h x (by simp)
    obtain ⟨hor, hmax⟩ := bmaxCode_form hd hce hc4 hcd hxe hx4 hxd
    have hform : ∀ y ∈ (bmaxCode c x) :: xs, ∃ s : List Char,
        y.data = pref.data ++ '-' :: s ∧ s.length = 4 ∧ s.all Char.isDigit = true := by
      intro y hy
      rcases List.mem_cons.mp hy with rfl | hy'
      · rcases hor with h' | h'
        · rw [h']; exact ⟨sc, hce, hc4, hcd⟩
        · rw [h']; exact ⟨sx, hxe, hx4, hxd⟩
      · exact h y (by simp [hy'])
    obtain ⟨ih1, ih2⟩ := ih (bmaxCode c x) hform
    refine ⟨?_, ih2⟩
    rw [List.foldl_cons, List.map_cons, List.foldl_cons, ih1, hmax]

theorem le_foldl_max : ∀ (l : List Nat) (a : Nat),
    a ≤ l.foldl Nat.max a ∧ ∀ x ∈ l, x ≤ l.foldl Nat.max a := by
  intro l
  induction l with
  | nil =>
    intro a
    exact ⟨le_refl a, by simp⟩
  | cons y ys ih =>
    intro a
    obtain ⟨h1, h2⟩ := ih (Nat.max a y)
    rw [List.foldl_cons]
    refine ⟨le_trans (Nat.le_max_left a y) h1, ?_⟩
    intro x hx
    rcases List.mem_cons.mp hx with rfl | hx'
    · exact le_trans (Nat.le_max_right a x) h1
    · exact h2 x hx'


/-! ### Claim C6 — the generator against the specification -/

theorem spec_code_seq (pref : String) (hd : ¬ '-' ∈ pref.data) (k : Nat) :
    specSeqOf (pref ++ "-" ++ pad4 k) = k := by
  obtain ⟨hval, hdig, hne⟩ := pad4_val k
  have hdata : (pref ++ "-" ++ pad4 k).data = pref.data ++ '-' :: (pad4 k).data := by
    show (pref.data ++ ['-']) ++ (pad4 k).data = _
    rw [List.append_assoc]
    rfl
  rw [specSeqOf_eq _ _ _ hdata hd hne hdig, hval]

theorem gen_next_code_spec (codes : List String) (category pref : String)
    (hpref : inv_category_prefix category = pref)
    (hd : ¬ '-' ∈ pref.data)
    (h4 : ∀ c ∈ codes, codeLike pref c = true →
      (c.data.drop (pref.data.length + 1)).length = 4 ∧
      (c.data.drop (pref.data.length + 1)).all Char.isDigit = true) :
    inv_generate_next_code codes category = specNextCode codes pref ∧
    ¬ inv_generate_next_code codes category ∈ codes ∧
    ∀ c ∈ codes, codeLike pref c = true →
      specSeqOf c < specSeqOf (inv_generate_next_code codes category) := by
  have hform : ∀ x ∈ codes.filter (fun c => codeLike pref c),
      ∃ s : List Char, x.data = pref.data ++ '-' :: s ∧ s.length = 4 ∧
        s.all Char.isDigit = true := by
    intro x hx
    rw [List.mem_filter] at hx
    obtain ⟨hxc, hlike⟩ := hx
    obtain ⟨hl4, hld⟩ := h4 x hxc hlike
    exact ⟨_, codeLike_decomp hlike, hl4, hld⟩
  have hEq : inv_generate_next_code codes category = specNextCode codes pref := by
    cases hfil : codes.filter (fun c => codeLike pref c) with
    | nil =>
      have hmax : maxLikeCode codes pref = none := by
        unfold maxLikeCode
        rw [hfil]
      simp only [inv_generate_next_code, specNextCode, hpref, hmax, hfil]
      rfl
    | cons c0 cs0 =>
      have hmax : maxLikeCode codes pref = some (cs0.foldl bmaxCode c0) := by
        unfold maxLikeCode
        rw [hfil]
      have hform' : ∀ x ∈ c0 :: cs0, ∃ s : List Char,
          x.data = pref.data ++ '-' :: s ∧ s.length = 4 ∧ s.all Char.isDigit = true := by
        rw [← hfil]
        exact hform
      obtain ⟨hfold, sL, hLe, hL4, hLd⟩ := foldl_bmax_spec hd cs0 c0 hform'
      have hcont : (cs0.foldl bmaxCode c0).data.contains '-' = true := by
        rw [hLe]
        exact List.elem_eq_true_of_mem (by simp)
      simp only [inv_generate_next_code, specNextCode, hpref, hmax]
      rw [if_pos hcont]
      show pref ++ "-" ++ pad4 (specSeqOf (cs0.foldl bmaxCode c0) + 1)
        = pref ++ "-" ++
          pad4 (((codes.filter (fun c => codeLike pref c)).map specSeqOf).foldl Nat.max 0 + 1)
      have hzm : Nat.max 0 (specSeqOf c0) = specSeqOf c0 :=
        Nat.max_eq_right (Nat.zero_le _)
      rw [hfil, List.map_cons, List.foldl_cons, hzm, ← hfold]
  have hspec_form : specNextCode codes pref =
      pref ++ "-" ++
        pad4 (((codes.filter (fun c => codeLike pref c)).map specSeqOf).foldl Nat.max 0 + 1) :=
    rfl
  refine ⟨hEq, ?_, ?_⟩
  · rw [hEq, hspec_form]
    intro hmem
    have hlike : codeLike pref (pref ++ "-" ++
        pad4 (((codes.filter (fun c => codeLike pref c)).map specSeqOf).foldl Nat.max 0 + 1))
        = true := codeLike_gen pref _
    have hmf := List.mem_filter.mpr ⟨hmem, hlike⟩
    have hseq := (le_foldl_max ((codes.filter (fun c => codeLike pref c)).map specSeqOf) 0).2
      _ (List.mem_map_of_mem specSeqOf hmf)
    rw [spec_code_seq pref hd] at hseq
    omega
  · intro c hc hlike
    rw [hEq, hspec_form, spec_code_seq pref hd]
    have hcf := List.mem_filter.mpr ⟨hc, hlike⟩
    have hle := (le_foldl_max ((codes.filter (fun c => codeLike pref c)).map specSeqOf) 0).2
      _ (List.mem_map_of_mem specSeqOf hcf)
    omega


/-- C6 as stated is false on the code: the query orders codes as text, so
after `P-9999` the generator emits the five-digit `P-10000`; and once
`P-10000` exists, the text-greatest code is still `P-9999`, so the
generator emits `P-10000` again — a repeat of an existing code, not the
4-digit zero-padded successor (`P-10001`) of the highest existing
sequence number. -/
theorem C6_cex :
    inv_generate_next_code ["P-9999"] "Papelería" = "P-10000" ∧
    inv_generate_next_code ["P-9999", "P-10000"] "Papelería" = "P-10000" ∧
    specNextCode ["P-9999", "P-10000"] "P" = "P-10001" ∧
    ("P-10000" ∈ ["P-9999", "P-10000"]) := by decide

/-- C6 (amended): as long as every existing code with the category's
prefix carries a 4-digit sequence field (true for the first 9999 codes
per prefix, where text ordering agrees with numeric ordering), the
generated code is the zero-padded successor of the highest existing
sequence number, is not among the existing codes, and its sequence number
strictly exceeds every existing one — so codes are strictly increasing
and never repeat within that range. -/
theorem C6_code_generation (codes : List String) (category : String)
    (h4 : ∀ c ∈ codes, codeLike ( inv_category_prefix category) c = true →
      (c.data.drop (( inv_category_prefix category).data.length + 1)).length = 4 ∧
      (c.data.drop (( inv_category_prefix category).data.length + 1)).all Char.isDigit
        = true) :
    inv_generate_next_code codes category =
      specNextCode codes ( inv_category_prefix category) ∧
    ¬ inv_generate_next_code codes category ∈ codes ∧
    ∀ c ∈ codes, codeLike ( inv_category_prefix category) c = true →
      specSeqOf c < specSeqOf (inv_generate_next_code codes category) :=
  gen_next_code_spec codes category ( inv_category_prefix category) rfl
    (dash_not_mem_prefData category) h4

/-- The amended C6 at a concrete 4-digit code table: the next `F` code is
the numeric successor `F-0004`, fresh and strictly above `F-0003`. -/
theorem C6_witness :
    inv_generate_next_code ["F-0001", "F-0003", "E-0002"] "Ferretería" =
      specNextCode ["F-0001", "F-0003", "E-0002"] ( inv_category_prefix "Ferretería") ∧
    ¬ inv_generate_next_code ["F-0001", "F-0003", "E-0002"] "Ferretería" ∈
        ["F-0001", "F-0003", "E-0002"] ∧
    specSeqOf "F-0003" <
      specSeqOf (inv_generate_next_code ["F-0001", "F-0003", "E-0002"] "Ferretería") := by
  have h := C6_code_generation ["F-0001", "F-0003", "E-0002"] "Ferretería" (by decide)
  exact ⟨h.1, h.2.1, h.2.2 "F-0003" (by decide) (by decide)⟩

end WomPartes
